import Mathlib

/-!
Shallow embedding of the sliding-puzzle engine of `GUI.py`
(class `SlidingPuzzle`): board representation, shuffle, move
validation/application, solved check, new-game lifecycle and the
external-bot launch, together with proofs of the specified properties.

Python semantics that matter here are modelled explicitly:
* `xs[i]` for an `int` index `i` wraps negative indices
  (`xs[i] = xs[len+i]` when `-len <= i < 0`) and raises `IndexError`
  otherwise when out of range — `pyGet` / `pySet`;
* `xs.index(v)` returns the first index of `v` and raises `ValueError`
  when `v` is absent — `pyIndexOf`;
* `random.choice` is modelled by an oracle `rand : Nat → Nat`, reduced
  modulo the length of the candidate list.
Raising is modelled by `Except String`.
-/

namespace SlidingPuzzle

/-- The three observable outcomes of a click: no state change, a swap, or
a swap after which the board is solved (the congratulation dialog). -/
inductive Outcome where
  | unchanged
  | moved
  | movedAndSolved
deriving DecidableEq, Repr

/-- The mutable state of the `SlidingPuzzle` object that the puzzle logic
touches: `size` (the `IntVar`, always in `[2,8]` after `new_game`),
`mode` (`"Human"` or `"Bot"`), `move_count`, and the flat `tiles` list. -/
structure PuzzleState where
  size : Nat
  mode : String
  move_count : Nat
  tiles : List Nat
deriving DecidableEq, Repr

/-- Resolve a Python `int` index against a list length: negative indices
wrap by `+ len`; the result is `some` of the effective index when it is
in range and `none` (an `IndexError`) otherwise. -/
def pyIdx (len : Nat) (i : Int) : Option Nat :=
  let j : Int := if i < 0 then i + len else i
  if 0 ≤ j ∧ j < len then some j.toNat else none

/-- Python `xs[i]` (read). -/
def pyGet (xs : List Nat) (i : Int) : Except String Nat :=
  match pyIdx xs.length i with
  | some j => .ok (xs.getD j 0)
  | none => .error "IndexError"

/-- Python `xs[i] = v` (write). -/
def pySet (xs : List Nat) (i : Int) (v : Nat) : Except String (List Nat) :=
  match pyIdx xs.length i with
  | some j => .ok (xs.set j v)
  | none => .error "IndexError"

/-- Python `xs.index(v)`: first index of `v`, `ValueError` when absent. -/
def pyIndexOf (xs : List Nat) (v : Nat) : Except String Nat :=
  if v ∈ xs then .ok (xs.indexOf v) else .error "ValueError"

/-- The clamping performed at the top of `new_game`: `n < 2` becomes `2`,
`n > 8` becomes `8`, anything else is kept. -/
def clampSize (n : Int) : Nat :=
  if n < 2 then 2 else if n > 8 then 8 else n.toNat

/-- `list(range(1, n*n)) + [0]`: the solved board. -/
def solvedBoard (n : Nat) : List Nat :=
  List.range' 1 (n * n - 1) ++ [0]

/-- `get_blank_pos`: `divmod(self.tiles.index(0), n)`. -/
def get_blank_pos (n : Nat) (tiles : List Nat) : Except String (Nat × Nat) :=
  match pyIndexOf tiles 0 with
  | .ok index => .ok (index / n, index % n)
  | .error e => .error e

/-- `get_neighbors`: the orthogonal in-grid neighbours of `(r, c)`,
in the order up, down, left, right (the order the source appends them). -/
def get_neighbors (n r c : Nat) : List (Nat × Nat) :=
  (if 0 < r then [(r - 1, c)] else []) ++
  (if r < n - 1 then [(r + 1, c)] else []) ++
  (if 0 < c then [(r, c - 1)] else []) ++
  (if c < n - 1 then [(r, c + 1)] else [])

/-- `is_solved`: `self.tiles == list(range(1, n*n)) + [0]`. -/
def is_solved (st : PuzzleState) : Bool :=
  st.tiles == solvedBoard st.size

/-- One iteration of the `shuffle_board` loop: locate the blank, pick a
random orthogonal neighbour (`rand` modulo the neighbour count models
`random.choice`), and swap the blank with it. -/
def shuffle_step (n : Nat) (tiles : List Nat) (k : Nat) : Except String (List Nat) :=
  match get_blank_pos n tiles with
  | .error e => .error e
  | .ok (br, bc) =>
    let neighbors := get_neighbors n br bc
    if neighbors = [] then .ok tiles
    else
      let nb := neighbors.getD (k % neighbors.length) (0, 0)
      let blank_index : Nat := br * n + bc
      let tile_index : Nat := nb.1 * n + nb.2
      match pyGet tiles tile_index with
      | .error e => .error e
      | .ok a =>
        match pyGet tiles blank_index with
        | .error e => .error e
        | .ok b =>
          match pySet tiles blank_index a with
          | .error e => .error e
          | .ok t1 => pySet t1 tile_index b

/-- `shuffle_board(moves)`: iterate `shuffle_step` `moves` times. -/
def shuffle_board (n : Nat) (rand : Nat → Nat) : Nat → List Nat → Except String (List Nat)
  | 0, tiles => .ok tiles
  | m + 1, tiles =>
    match shuffle_step n tiles (rand m) with
    | .error e => .error e
    | .ok t => shuffle_board n rand m t

/-- `shuffle_board` as a method on the object state: it reads `size` and
rewrites `tiles`; nothing else is touched. -/
def shuffle_board_state (st : PuzzleState) (rand : Nat → Nat) (moves : Nat) :
    Except String PuzzleState :=
  match shuffle_board st.size rand moves st.tiles with
  | .error e => .error e
  | .ok t => .ok { st with tiles := t }

/-- `new_game`: read the size spinbox value `nInput`, clamp it into
`[2,8]`, reset the move counter, install the solved board, and shuffle it
with `n * n * 20` random legal slides. -/
def new_game (st : PuzzleState) (nInput : Int) (rand : Nat → Nat) :
    Except String PuzzleState :=
  let n := clampSize nInput
  shuffle_board_state { st with size := n, move_count := 0, tiles := solvedBoard n }
    rand (n * n * 20)

/-- `on_tile_click(row, col)`: no-op outside Human mode; otherwise read
the clicked cell through Python indexing, locate the blank, test Manhattan
adjacency, and on success swap, bump the counter, and report whether the
board is now solved. -/
def on_tile_click (st : PuzzleState) (row col : Int) :
    Except String (PuzzleState × Outcome) :=
  if st.mode ≠ "Human" then .ok (st, .unchanged)
  else
    let n : Int := st.size
    let index : Int := row * n + col
    match pyGet st.tiles index with
    | .error e => .error e
    | .ok v =>
      if v = 0 then .ok (st, .unchanged)
      else
        match pyIndexOf st.tiles 0 with
        | .error e => .error e
        | .ok blank_index =>
          let br : Nat := blank_index / st.size
          let bc : Nat := blank_index % st.size
          if ((br : Int) - row).natAbs + ((bc : Int) - col).natAbs = 1 then
            match pySet st.tiles (blank_index : Int) v with
            | .error e => .error e
            | .ok t1 =>
              match pySet t1 index (st.tiles.getD blank_index 0) with
              | .error e => .error e
              | .ok t2 =>
                let st' : PuzzleState :=
                  { st with tiles := t2, move_count := st.move_count + 1 }
                if is_solved st' then .ok (st', .movedAndSolved)
                else .ok (st', .moved)
          else .ok (st, .unchanged)

/-- Result of the `subprocess.Popen` spawn attempt in `call_bot_script`. -/
inductive SpawnResult where
  | started
  | raised (e : String)

/-- `call_bot_script`: if the bot script file is missing, show an error
dialog and return; otherwise try to spawn it, showing an error dialog if
the spawn raises. The returned `Option String` is the error dialog text
(`none` when no dialog is shown); the puzzle state is returned as-is. -/
def call_bot_script (st : PuzzleState) (script_exists : Bool) (spawn : SpawnResult) :
    PuzzleState × Option String :=
  if script_exists = false then
    (st, some "Bot script not found .\nExpected file: Bot.py")
  else
    match spawn with
    | .started => (st, none)
    | .raised e => (st, some ("Failed to start bot script:\n" ++ e))

/-- The engine calls a user may drive: pressing New Game (with the current
spinbox value and a randomness oracle) or clicking a board cell. -/
inductive Op where
  | newGame (n : Int) (rand : Nat → Nat)
  | click (row col : Int)

/-- Apply one call to the state. A click is only admitted with in-grid
coordinates, matching the claim's quantification. -/
def applyOp (st : PuzzleState) : Op → Except String PuzzleState
  | .newGame n rand => new_game st n rand
  | .click r c =>
    if 0 ≤ r ∧ r < (st.size : Int) ∧ 0 ≤ c ∧ c < (st.size : Int) then
      match on_tile_click st r c with
      | .error e => .error e
      | .ok (st', _) => .ok st'
    else .error "out-of-grid coordinate"

/-- Run a sequence of calls. -/
def runOps (st : PuzzleState) : List Op → Except String PuzzleState
  | [] => .ok st
  | op :: ops =>
    match applyOp st op with
    | .error e => .error e
    | .ok st' => runOps st' ops

/-- Swap the values at flat positions `i` and `j`. -/
def swapCells (tiles : List Nat) (i j : Nat) : List Nat :=
  (tiles.set i (tiles.getD j 0)).set j (tiles.getD i 0)

/-- One legal slide on a board of width `n`: the blank, at the position
`get_blank_pos` reports, is swapped with one of its orthogonal in-grid
neighbours. -/
def LegalSlide (n : Nat) (t t' : List Nat) : Prop :=
  ∃ br bc nr nc,
    get_blank_pos n t = .ok (br, bc) ∧
    (nr, nc) ∈ get_neighbors n br bc ∧
    t' = swapCells t (br * n + bc) (nr * n + nc)

/-- Reachability by a finite sequence of legal slides. -/
def ReachableFrom (n : Nat) (t t' : List Nat) : Prop :=
  Relation.ReflTransGen (LegalSlide n) t t'

/-- States whose tiles are a permutation of `{0, …, size²-1}` with the
size in the supported range. -/
def ValidState (st : PuzzleState) : Prop :=
  2 ≤ st.size ∧ st.size ≤ 8 ∧ st.tiles.Perm (List.range (st.size * st.size))

/-! ### Python indexing helpers -/

theorem pyIdx_coe {len j : Nat} (h : j < len) : pyIdx len (j : Int) = some j := by
  have h0 : ¬((j : Int) < 0) := by omega
  have h1 : (0 : Int) ≤ (j : Int) ∧ (j : Int) < (len : Int) := by omega
  simp only [pyIdx]
  rw [if_neg h0, if_pos h1]
  simp

theorem pyIdx_some_lt {len : Nat} {i : Int} {j : Nat}
    (h : pyIdx len i = some j) : j < len := by
  simp only [pyIdx] at h
  split_ifs at h <;> simp at h <;> omega

theorem pyGet_ok {xs : List Nat} {i : Int} {j : Nat}
    (h : pyIdx xs.length i = some j) : pyGet xs i = .ok (xs.getD j 0) := by
  simp only [pyGet, h]

theorem pyGet_err {xs : List Nat} {i : Int}
    (h : pyIdx xs.length i = none) : pyGet xs i = .error "IndexError" := by
  simp only [pyGet, h]

theorem pySet_ok {xs : List Nat} {i : Int} {j : Nat} (v : Nat)
    (h : pyIdx xs.length i = some j) : pySet xs i v = .ok (xs.set j v) := by
  simp only [pySet, h]

theorem pyGet_ok_elim {xs : List Nat} {i : Int} {v : Nat}
    (h : pyGet xs i = .ok v) :
    ∃ j, pyIdx xs.length i = some j ∧ j < xs.length ∧ v = xs.getD j 0 := by
  simp only [pyGet] at h
  cases hj : pyIdx xs.length i with
  | none => simp [hj] at h
  | some j =>
    refine ⟨j, rfl, pyIdx_some_lt hj, ?_⟩
    simp only [hj, Except.ok.injEq] at h
    exact h.symm

theorem pySet_ok_elim {xs ys : List Nat} {i : Int} {v : Nat}
    (h : pySet xs i v = .ok ys) :
    ∃ j, pyIdx xs.length i = some j ∧ j < xs.length ∧ ys = xs.set j v := by
  simp only [pySet] at h
  cases hj : pyIdx xs.length i with
  | none => simp [hj] at h
  | some j =>
    refine ⟨j, rfl, pyIdx_some_lt hj, ?_⟩
    simp only [hj, Except.ok.injEq] at h
    exact h.symm

theorem pyIndexOf_ok {xs : List Nat} {v : Nat} (h : v ∈ xs) :
    pyIndexOf xs v = .ok (xs.indexOf v) := by
  simp only [pyIndexOf, if_pos h]

theorem pyIndexOf_ok_elim {xs : List Nat} {v b : Nat}
    (h : pyIndexOf xs v = .ok b) : v ∈ xs ∧ b = xs.indexOf v := by
  by_cases hm : v ∈ xs
  · simp only [pyIndexOf, if_pos hm, Except.ok.injEq] at h
    exact ⟨hm, h.symm⟩
  · simp [pyIndexOf, if_neg hm] at h

/-! ### Swapping two positions of a list is a permutation -/

theorem getD_cons_set_perm :
    ∀ (xs : List Nat) (k : Nat) (x : Nat), k < xs.length →
      (xs.getD k 0 :: xs.set k x).Perm (x :: xs) := by
  intro xs
  induction xs with
  | nil => intro k x hk; simp at hk
  | cons y ys ih =>
    intro k x hk
    cases k with
    | zero =>
      simpa using List.Perm.swap x y ys
    | succ m =>
      have hm : m < ys.length := by simpa using hk
      have s1 : (ys.getD m 0 :: y :: ys.set m x).Perm (y :: ys.getD m 0 :: ys.set m x) :=
        List.Perm.swap y (ys.getD m 0) _
      have s2 : (y :: ys.getD m 0 :: ys.set m x).Perm (y :: x :: ys) :=
        (ih m x hm).cons y
      have s3 : (y :: x :: ys).Perm (x :: y :: ys) := List.Perm.swap x y ys
      simpa using (s1.trans s2).trans s3

theorem swapCells_perm :
    ∀ (l : List Nat) (i j : Nat), i < l.length → j < l.length →
      (swapCells l i j).Perm l := by
  intro l
  induction l with
  | nil => intro i j hi _; simp at hi
  | cons x xs ih =>
    intro i j hi hj
    cases i with
    | zero =>
      cases j with
      | zero => simp [swapCells]
      | succ m =>
        have hm : m < xs.length := by simpa using hj
        simpa [swapCells] using getD_cons_set_perm xs m x hm
    | succ k =>
      have hk : k < xs.length := by simpa using hi
      cases j with
      | zero =>
        simpa [swapCells] using getD_cons_set_perm xs k x hk
      | succ m =>
        have hm : m < xs.length := by simpa using hj
        simpa [swapCells] using (ih k m hk hm).cons x

theorem swapCells_length (l : List Nat) (i j : Nat) :
    (swapCells l i j).length = l.length := by
  simp [swapCells]

/-! ### Solved board facts -/

theorem solvedBoard_perm {n : Nat} (hn : 0 < n) :
    (solvedBoard n).Perm (List.range (n * n)) := by
  have h1 : n * n - 1 + 1 = n * n := Nat.succ_pred_eq_of_pos (Nat.mul_pos hn hn)
  have h2 : (solvedBoard n).Perm (0 :: List.range' 1 (n * n - 1)) :=
    List.perm_append_singleton 0 _
  have h3 : List.range (n * n) = 0 :: List.range' 1 (n * n - 1) := by
    rw [List.range_eq_range', ← h1, List.range'_succ]
    norm_num
  rw [h3]
  exact h2

theorem solvedBoard_length (n : Nat) (hn : 0 < n) :
    (solvedBoard n).length = n * n := by
  simp [solvedBoard]
  exact Nat.sub_add_cancel (Nat.mul_pos hn hn)

/-! ### Blank position and grid arithmetic -/

theorem blank_lt_length {t : List Nat} (h : 0 ∈ t) :
    t.indexOf 0 < t.length :=
  List.indexOf_lt_length.2 h

theorem getD_blank {t : List Nat} (h : 0 ∈ t) :
    t.getD (t.indexOf 0) 0 = 0 := by
  rw [List.getD_eq_getElem t 0 (blank_lt_length h)]
  exact List.getElem_indexOf (blank_lt_length h)

theorem flat_lt {n r c : Nat} (hr : r < n) (hc : c < n) : r * n + c < n * n := by
  have h1 : r * n + c < (r + 1) * n := by
    have : (r + 1) * n = r * n + n := by ring
    omega
  have h2 : (r + 1) * n ≤ n * n := Nat.mul_le_mul_right n hr
  omega

theorem div_lt_of_lt_sq {n b : Nat} (hb : b < n * n) : b / n < n :=
  Nat.div_lt_of_lt_mul hb

theorem get_neighbors_spec {n r c nr nc : Nat} (hr : r < n) (hc : c < n)
    (h : (nr, nc) ∈ get_neighbors n r c) :
    nr < n ∧ nc < n ∧ ((r : Int) - nr).natAbs + ((c : Int) - nc).natAbs = 1 := by
  simp only [get_neighbors, List.mem_append] at h
  rcases h with ((h | h) | h) | h <;>
    (split_ifs at h with hg <;> simp_all <;> omega)

/-! ### `on_tile_click` case analysis -/

/-- The state after an accepted click that swaps the blank (at the first
flat index holding 0) with the clicked cell at effective flat index `j`:
the two cells are exchanged and the move counter is bumped. -/
def clickResult (st : PuzzleState) (j : Nat) : PuzzleState :=
  { st with tiles := swapCells st.tiles (st.tiles.indexOf 0) j,
            move_count := st.move_count + 1 }

theorem click_not_human {st : PuzzleState} (row col : Int)
    (h : st.mode ≠ "Human") :
    on_tile_click st row col = .ok (st, .unchanged) := by
  unfold on_tile_click
  rw [if_pos h]

theorem click_index_error {st : PuzzleState} {row col : Int}
    (hmode : st.mode = "Human")
    (hidx : pyIdx st.tiles.length (row * (st.size : Int) + col) = none) :
    on_tile_click st row col = .error "IndexError" := by
  unfold on_tile_click
  rw [if_neg (by simp [hmode])]
  simp only [pyGet_err hidx]

theorem click_blank {st : PuzzleState} {row col : Int} {j : Nat}
    (hmode : st.mode = "Human")
    (hidx : pyIdx st.tiles.length (row * (st.size : Int) + col) = some j)
    (hv : st.tiles.getD j 0 = 0) :
    on_tile_click st row col = .ok (st, .unchanged) := by
  unfold on_tile_click
  rw [if_neg (by simp [hmode])]
  simp only [pyGet_ok hidx]
  rw [if_pos hv]

theorem click_reject {st : PuzzleState} {row col : Int} {j : Nat}
    (hmode : st.mode = "Human")
    (hidx : pyIdx st.tiles.length (row * (st.size : Int) + col) = some j)
    (hv : st.tiles.getD j 0 ≠ 0)
    (hmem : 0 ∈ st.tiles)
    (hdist : (((st.tiles.indexOf 0 / st.size : Nat) : Int) - row).natAbs +
             (((st.tiles.indexOf 0 % st.size : Nat) : Int) - col).natAbs ≠ 1) :
    on_tile_click st row col = .ok (st, .unchanged) := by
  unfold on_tile_click
  rw [if_neg (by simp [hmode])]
  simp only [pyGet_ok hidx]
  rw [if_neg hv]
  simp only [pyIndexOf_ok hmem]
  rw [if_neg hdist]

theorem click_accept {st : PuzzleState} {row col : Int} {j : Nat}
    (hmode : st.mode = "Human")
    (hidx : pyIdx st.tiles.length (row * (st.size : Int) + col) = some j)
    (hv : st.tiles.getD j 0 ≠ 0)
    (hmem : 0 ∈ st.tiles)
    (hdist : (((st.tiles.indexOf 0 / st.size : Nat) : Int) - row).natAbs +
             (((st.tiles.indexOf 0 % st.size : Nat) : Int) - col).natAbs = 1) :
    on_tile_click st row col =
      .ok (clickResult st j,
           if is_solved (clickResult st j) then .movedAndSolved else .moved) := by
  have hb : st.tiles.indexOf 0 < st.tiles.length := blank_lt_length hmem
  unfold on_tile_click
  rw [if_neg (by simp [hmode])]
  simp only [pyGet_ok hidx]
  rw [if_neg hv]
  simp only [pyIndexOf_ok hmem]
  rw [if_pos hdist]
  simp only [pySet_ok (st.tiles.getD j 0) (pyIdx_coe hb)]
  have hidx2 : pyIdx (st.tiles.set (st.tiles.indexOf 0) (st.tiles.getD j 0)).length
      (row * (st.size : Int) + col) = some j := by
    rw [List.length_set]
    exact hidx
  simp only [pySet_ok (st.tiles.getD (st.tiles.indexOf 0) 0) hidx2]
  simp only [clickResult, swapCells]
  split_ifs <;> rfl

theorem pyIdx_nonneg {len : Nat} {i : Int} (h0 : 0 ≤ i) (h1 : i < len) :
    pyIdx len i = some i.toNat := by
  have ha : ¬(i < 0) := by omega
  have hb : (0 : Int) ≤ i ∧ i < (len : Int) := ⟨h0, h1⟩
  simp only [pyIdx]
  rw [if_neg ha, if_pos hb]

theorem pyGet_ok_elim' {xs : List Nat} {i : Int} {e : String}
    (h : pyGet xs i = .error e) : pyIdx xs.length i = none := by
  cases hj : pyIdx xs.length i with
  | none => rfl
  | some j => rw [pyGet_ok hj] at h; exact Except.noConfusion h

theorem click_no_blank {st : PuzzleState} {row col : Int} {j : Nat}
    (hmode : st.mode = "Human")
    (hidx : pyIdx st.tiles.length (row * (st.size : Int) + col) = some j)
    (hv : st.tiles.getD j 0 ≠ 0)
    (hmem : (0 : Nat) ∉ st.tiles) :
    on_tile_click st row col = .error "ValueError" := by
  unfold on_tile_click
  rw [if_neg (by simp [hmode])]
  simp only [pyGet_ok hidx]
  rw [if_neg hv]
  simp only [pyIndexOf, if_neg hmem]

/-- Every successful `on_tile_click` either returns the state untouched
with outcome `unchanged`, or returns `clickResult st j` for the clicked
effective index `j` with a non-`unchanged` outcome. -/
theorem on_tile_click_cases {st st' : PuzzleState} {row col : Int} {out : Outcome}
    (h : on_tile_click st row col = .ok (st', out)) :
    (st' = st ∧ out = .unchanged) ∨
    (∃ j, j < st.tiles.length ∧ 0 ∈ st.tiles ∧ st.tiles.getD j 0 ≠ 0 ∧
      st' = clickResult st j ∧ out ≠ .unchanged) := by
  by_cases hmode : st.mode = "Human"
  · cases hg : pyGet st.tiles (row * (st.size : Int) + col) with
    | error e =>
      rw [click_index_error hmode (pyGet_ok_elim' hg)] at h
      exact Except.noConfusion h
    | ok v =>
      obtain ⟨j, hidx, hjlt, hvj⟩ := pyGet_ok_elim hg
      subst hvj
      by_cases hv : st.tiles.getD j 0 = 0
      · rw [click_blank hmode hidx hv] at h
        simp only [Except.ok.injEq, Prod.mk.injEq] at h
        exact Or.inl ⟨h.1.symm, h.2.symm⟩
      · by_cases hmem : (0 : Nat) ∈ st.tiles
        · by_cases hdist :
            (((st.tiles.indexOf 0 / st.size : Nat) : Int) - row).natAbs +
              (((st.tiles.indexOf 0 % st.size : Nat) : Int) - col).natAbs = 1
          · rw [click_accept hmode hidx hv hmem hdist] at h
            simp only [Except.ok.injEq, Prod.mk.injEq] at h
            refine Or.inr ⟨j, hjlt, hmem, hv, h.1.symm, ?_⟩
            rw [← h.2]
            split_ifs <;> simp
          · rw [click_reject hmode hidx hv hmem hdist] at h
            simp only [Except.ok.injEq, Prod.mk.injEq] at h
            exact Or.inl ⟨h.1.symm, h.2.symm⟩
        · rw [click_no_blank hmode hidx hv hmem] at h
          exact Except.noConfusion h
  · rw [click_not_human row col hmode] at h
    simp only [Except.ok.injEq, Prod.mk.injEq] at h
    exact Or.inl ⟨h.1.symm, h.2.symm⟩

/-! ### Shuffle: totality, permutation preservation, reachability -/

theorem get_blank_pos_ok {n : Nat} {tiles : List Nat} (hmem : 0 ∈ tiles) :
    get_blank_pos n tiles = .ok (tiles.indexOf 0 / n, tiles.indexOf 0 % n) := by
  simp only [get_blank_pos, pyIndexOf_ok hmem]

theorem shuffle_step_ok {n : Nat} {tiles : List Nat} (k : Nat)
    (hlen : tiles.length = n * n) (hmem : 0 ∈ tiles) :
    ∃ t', shuffle_step n tiles k = .ok t' ∧ t'.Perm tiles ∧
      (t' = tiles ∨ LegalSlide n tiles t') := by
  have hlenpos : 0 < tiles.length := List.length_pos.mpr (List.ne_nil_of_mem hmem)
  have hn : 0 < n := by
    rcases Nat.eq_zero_or_pos n with h0 | h
    · rw [h0] at hlen; omega
    · exact h
  have hb : tiles.indexOf 0 < tiles.length := blank_lt_length hmem
  have hbsq : tiles.indexOf 0 < n * n := hlen ▸ hb
  have hbr : tiles.indexOf 0 / n < n := div_lt_of_lt_sq hbsq
  have hbc : tiles.indexOf 0 % n < n := Nat.mod_lt _ hn
  have hflat : tiles.indexOf 0 / n * n + tiles.indexOf 0 % n = tiles.indexOf 0 := by
    have h1 := Nat.div_add_mod (tiles.indexOf 0) n
    have h2 : tiles.indexOf 0 / n * n = n * (tiles.indexOf 0 / n) := Nat.mul_comm _ _
    omega
  simp only [shuffle_step, get_blank_pos_ok hmem]
  by_cases hne : get_neighbors n (tiles.indexOf 0 / n) (tiles.indexOf 0 % n) = []
  · rw [if_pos hne]
    exact ⟨tiles, rfl, List.Perm.refl _, Or.inl rfl⟩
  · rw [if_neg hne]
    have hlp : 0 < (get_neighbors n (tiles.indexOf 0 / n) (tiles.indexOf 0 % n)).length :=
      List.length_pos.mpr hne
    have hkm : k % (get_neighbors n (tiles.indexOf 0 / n) (tiles.indexOf 0 % n)).length <
        (get_neighbors n (tiles.indexOf 0 / n) (tiles.indexOf 0 % n)).length :=
      Nat.mod_lt _ hlp
    set nlist := get_neighbors n (tiles.indexOf 0 / n) (tiles.indexOf 0 % n) with hnl
    set nb := nlist.getD (k % nlist.length) (0, 0) with hnbdef
    have hnbmem : (nb.1, nb.2) ∈ nlist := by
      have : nb ∈ nlist := by
        rw [hnbdef, List.getD_eq_getElem _ _ hkm]
        exact List.getElem_mem _
      exact Prod.mk.eta.symm ▸ this
    obtain ⟨hnr, hnc, -⟩ := get_neighbors_spec hbr hbc hnbmem
    have htile : nb.1 * n + nb.2 < n * n := flat_lt hnr hnc
    have htl : nb.1 * n + nb.2 < tiles.length := hlen ▸ htile
    rw [hflat]
    simp only [pyGet_ok (pyIdx_coe htl), pyGet_ok (pyIdx_coe hb),
      pySet_ok (tiles.getD (nb.1 * n + nb.2) 0) (pyIdx_coe hb)]
    have hidx2 : pyIdx (tiles.set (tiles.indexOf 0) (tiles.getD (nb.1 * n + nb.2) 0)).length
        ((nb.1 * n + nb.2 : Nat) : Int) = some (nb.1 * n + nb.2) := by
      rw [List.length_set]
      exact pyIdx_coe htl
    simp only [pySet_ok (tiles.getD (tiles.indexOf 0) 0) hidx2]
    refine ⟨swapCells tiles (tiles.indexOf 0) (nb.1 * n + nb.2), rfl,
      swapCells_perm _ _ _ hb htl, Or.inr ?_⟩
    refine ⟨tiles.indexOf 0 / n, tiles.indexOf 0 % n, nb.1, nb.2,
      get_blank_pos_ok hmem, hnbmem, ?_⟩
    rw [hflat]

theorem shuffle_board_ok {n : Nat} (rand : Nat → Nat) :
    ∀ (moves : Nat) (tiles : List Nat), tiles.length = n * n → 0 ∈ tiles →
    ∃ t', shuffle_board n rand moves tiles = .ok t' ∧ t'.Perm tiles ∧
      Relation.ReflTransGen (LegalSlide n) tiles t' := by
  intro moves
  induction moves with
  | zero =>
    intro tiles hlen hmem
    exact ⟨tiles, rfl, List.Perm.refl _, Relation.ReflTransGen.refl⟩
  | succ m ih =>
    intro tiles hlen hmem
    obtain ⟨t1, hstep, hperm, hslide⟩ := shuffle_step_ok (rand m) hlen hmem
    have hlen1 : t1.length = n * n := by rw [hperm.length_eq, hlen]
    have hmem1 : 0 ∈ t1 := hperm.mem_iff.mpr hmem
    obtain ⟨t2, hrun, hperm2, hreach⟩ := ih t1 hlen1 hmem1
    refine ⟨t2, ?_, hperm2.trans hperm, ?_⟩
    · simp only [shuffle_board, hstep]
      exact hrun
    · cases hslide with
      | inl heq => rw [heq] at hreach; exact hreach
      | inr hls => exact Relation.ReflTransGen.head hls hreach

theorem clampSize_bounds (n : Int) : 2 ≤ clampSize n ∧ clampSize n ≤ 8 := by
  simp only [clampSize]
  split_ifs <;> omega

/-- `new_game` always succeeds; it installs the clamped size, resets the
counter, and produces a permutation of `{0,…,n²-1}` reachable from the
solved board by legal slides. -/
theorem new_game_ok (st : PuzzleState) (nInput : Int) (rand : Nat → Nat) :
    ∃ st', new_game st nInput rand = .ok st' ∧
      st'.size = clampSize nInput ∧ st'.mode = st.mode ∧ st'.move_count = 0 ∧
      st'.tiles.Perm (List.range (st'.size * st'.size)) ∧
      Relation.ReflTransGen (LegalSlide st'.size) (solvedBoard st'.size) st'.tiles := by
  have hn : 0 < clampSize nInput := by
    have := clampSize_bounds nInput
    omega
  have hlen : (solvedBoard (clampSize nInput)).length =
      clampSize nInput * clampSize nInput := solvedBoard_length _ hn
  have hmem : 0 ∈ solvedBoard (clampSize nInput) := by simp [solvedBoard]
  obtain ⟨t', hrun, hperm, hreach⟩ :=
    shuffle_board_ok rand (clampSize nInput * clampSize nInput * 20)
      (solvedBoard (clampSize nInput)) hlen hmem
  refine ⟨{ st with size := clampSize nInput, move_count := 0, tiles := t' },
    ?_, rfl, rfl, rfl, hperm.trans (solvedBoard_perm hn), hreach⟩
  simp only [new_game, shuffle_board_state, hrun]

/-! ### Validity is preserved by every operation -/

theorem valid_of_click {st st' : PuzzleState} {row col : Int} {out : Outcome}
    (h : on_tile_click st row col = .ok (st', out)) (hv : ValidState st) :
    ValidState st' := by
  rcases on_tile_click_cases h with ⟨rfl, -⟩ | ⟨j, hj, hmem, -, rfl, -⟩
  · exact hv
  · obtain ⟨h2, h8, hperm⟩ := hv
    exact ⟨h2, h8, (swapCells_perm _ _ _ (blank_lt_length hmem) hj).trans hperm⟩

theorem valid_of_new_game {st st' : PuzzleState} {nInput : Int} {rand : Nat → Nat}
    (h : new_game st nInput rand = .ok st') : ValidState st' := by
  obtain ⟨st2, hng, hsize, -, -, hperm, -⟩ := new_game_ok st nInput rand
  rw [hng] at h
  cases h
  have := clampSize_bounds nInput
  exact ⟨by omega, by omega, hperm⟩

theorem runOps_valid : ∀ (ops : List Op) (st st' : PuzzleState), ValidState st →
    runOps st ops = .ok st' → ValidState st' := by
  intro ops
  induction ops with
  | nil =>
    intro st st' hv h
    simp only [runOps] at h
    cases h
    exact hv
  | cons op rest ih =>
    intro st st' hv h
    simp only [runOps] at h
    cases hap : applyOp st op with
    | error e => rw [hap] at h; exact Except.noConfusion h
    | ok st1 =>
      rw [hap] at h
      refine ih st1 st' ?_ h
      cases op with
      | newGame nI rand =>
        simp only [applyOp] at hap
        exact valid_of_new_game hap
      | click r c =>
        simp only [applyOp] at hap
        by_cases hgrid : 0 ≤ r ∧ r < (st.size : Int) ∧ 0 ≤ c ∧ c < (st.size : Int)
        · rw [if_pos hgrid] at hap
          cases hoc : on_tile_click st r c with
          | error e => rw [hoc] at hap; exact Except.noConfusion hap
          | ok p =>
            obtain ⟨sta, o⟩ := p
            rw [hoc] at hap
            cases hap
            exact valid_of_click hoc hv
        · rw [if_neg hgrid] at hap
          exact Except.noConfusion hap

/-! ### A click changes the board exactly when it is a legal slide -/

theorem clickResult_tiles_ne {st : PuzzleState} {j : Nat}
    (hmem : 0 ∈ st.tiles) (hj : j < st.tiles.length)
    (hv : st.tiles.getD j 0 ≠ 0) :
    (clickResult st j).tiles ≠ st.tiles := by
  intro heq
  have hb : st.tiles.indexOf 0 < st.tiles.length := blank_lt_length hmem
  have hbj : j ≠ st.tiles.indexOf 0 := fun hbj => hv (hbj ▸ getD_blank hmem)
  have h1 : (clickResult st j).tiles.getD (st.tiles.indexOf 0) 0 = st.tiles.getD j 0 := by
    simp only [clickResult, swapCells]
    rw [List.getD_eq_getElem _ _ (by simpa using hb)]
    simp [List.getElem_set_ne hbj]
  rw [heq, getD_blank hmem] at h1
  exact hv h1.symm

/-- Full characterization of `on_tile_click` in Human mode on a board
containing a blank: an unresolvable flat index raises `IndexError`, and
for a resolvable index `j` the call succeeds and changes `tiles` exactly
when cell `j` is not the blank and the raw `(row, col)` is at Manhattan
distance 1 from the blank's `divmod` position. -/
theorem click_spec (st : PuzzleState) (row col : Int)
    (hmode : st.mode = "Human") (hmem : 0 ∈ st.tiles) :
    (pyIdx st.tiles.length (row * (st.size : Int) + col) = none →
      on_tile_click st row col = .error "IndexError") ∧
    (∀ j, pyIdx st.tiles.length (row * (st.size : Int) + col) = some j →
      ∃ st' out, on_tile_click st row col = .ok (st', out) ∧
        (st'.tiles ≠ st.tiles ↔
          (st.tiles.getD j 0 ≠ 0 ∧
            (((st.tiles.indexOf 0 / st.size : Nat) : Int) - row).natAbs +
            (((st.tiles.indexOf 0 % st.size : Nat) : Int) - col).natAbs = 1))) := by
  constructor
  · intro hnone
    exact click_index_error hmode hnone
  · intro j hpy
    have hjlt : j < st.tiles.length := pyIdx_some_lt hpy
    by_cases hv : st.tiles.getD j 0 = 0
    · refine ⟨st, .unchanged, click_blank hmode hpy hv, ?_⟩
      exact iff_of_false (fun h => h rfl) (fun hc => hc.1 hv)
    · by_cases hdist :
        (((st.tiles.indexOf 0 / st.size : Nat) : Int) - row).natAbs +
          (((st.tiles.indexOf 0 % st.size : Nat) : Int) - col).natAbs = 1
      · refine ⟨clickResult st j,
          if is_solved (clickResult st j) then .movedAndSolved else .moved,
          click_accept hmode hpy hv hmem hdist, ?_⟩
        exact iff_of_true (clickResult_tiles_ne hmem hjlt hv) ⟨hv, hdist⟩
      · refine ⟨st, .unchanged, click_reject hmode hpy hv hmem hdist, ?_⟩
        exact iff_of_false (fun h => h rfl) (fun hc => hdist hc.2)

/-! ### Concrete states used to witness the theorems -/

/-- A valid 2×2 Human-mode position (blank at row 0, column 1). -/
def demoA : PuzzleState := ⟨2, "Human", 0, [1, 0, 2, 3]⟩

/-- The 2×2 Human-mode position with the blank at flat index 0. -/
def c4State : PuzzleState := ⟨2, "Human", 0, [0, 1, 2, 3]⟩

/-- A Bot-mode position. -/
def botState : PuzzleState := ⟨2, "Bot", 0, [0, 1, 2, 3]⟩

/-! ### Claims -/

/-- C1: for every board state and every in-grid coordinate (row, col) with
`0 ≤ row < N` and `0 ≤ col < N`, in Human mode, `on_tile_click` changes
`tiles` if and only if the cell at (row, col) does not hold the blank
(value 0) and its Manhattan distance to the blank's position is exactly 1;
in every other case `tiles` is left unchanged (and no error is raised). -/
theorem C1_move_legality (st : PuzzleState) (row col : Int)
    (hmode : st.mode = "Human")
    (hperm : st.tiles.Perm (List.range (st.size * st.size)))
    (hrow : 0 ≤ row ∧ row < (st.size : Int))
    (hcol : 0 ≤ col ∧ col < (st.size : Int)) :
    ∃ st' out, on_tile_click st row col = .ok (st', out) ∧
      (st'.tiles ≠ st.tiles ↔
        (st.tiles.getD (row * (st.size : Int) + col).toNat 0 ≠ 0 ∧
          (((st.tiles.indexOf 0 / st.size : Nat) : Int) - row).natAbs +
          (((st.tiles.indexOf 0 % st.size : Nat) : Int) - col).natAbs = 1)) := by
  have hlen : st.tiles.length = st.size * st.size := by
    rw [hperm.length_eq, List.length_range]
  have hnpos : 0 < st.size := by omega
  have hmem : (0 : Nat) ∈ st.tiles :=
    hperm.mem_iff.mpr (List.mem_range.mpr (Nat.mul_pos hnpos hnpos))
  have h0 : 0 ≤ row * (st.size : Int) + col := by
    have h1 := Int.mul_nonneg hrow.1 (Int.natCast_nonneg st.size)
    linarith [hcol.1]
  have hlt : row * (st.size : Int) + col < (st.size : Int) * st.size := by
    have h2 : row ≤ (st.size : Int) - 1 := by omega
    have h1 : row * (st.size : Int) ≤ ((st.size : Int) - 1) * st.size :=
      Int.mul_le_mul_of_nonneg_right h2 (Int.natCast_nonneg _)
    have h3 : ((st.size : Int) - 1) * (st.size : Int) =
        (st.size : Int) * st.size - st.size := by ring
    linarith [hcol.2]
  have hpy : pyIdx st.tiles.length (row * (st.size : Int) + col) =
      some (row * (st.size : Int) + col).toNat := by
    apply pyIdx_nonneg h0
    rw [hlen]
    push_cast
    exact hlt
  exact (click_spec st row col hmode hmem).2 _ hpy

theorem C1_witness :
    demoA.tiles.Perm (List.range (demoA.size * demoA.size)) ∧
    (∃ st' out, on_tile_click demoA 0 0 = .ok (st', out) ∧
      (st'.tiles ≠ demoA.tiles ↔
        (demoA.tiles.getD ((0 : Int) * (demoA.size : Int) + 0).toNat 0 ≠ 0 ∧
          (((demoA.tiles.indexOf 0 / demoA.size : Nat) : Int) - 0).natAbs +
          (((demoA.tiles.indexOf 0 % demoA.size : Nat) : Int) - 0).natAbs = 1))) :=
  ⟨by decide, C1_move_legality demoA 0 0 rfl (by decide) (by decide) (by decide)⟩

/-- C4 counterexample: clicking the out-of-grid coordinate (-1, 0) on the
2×2 board `[0,1,2,3]` is *not* a no-op — Python's negative indexing wraps
the flat index -2 to cell 2, the adjacency test `|0-(-1)|+|0-0| = 1`
passes, and the board changes to `[2,1,0,3]` with the counter bumped;
moreover the out-of-grid coordinate (2, 0) raises an `IndexError`. -/
theorem C4_counterexample :
    ¬(0 ≤ (-1 : Int)) ∧
    on_tile_click c4State (-1) 0 =
      .ok (⟨2, "Human", 1, [2, 1, 0, 3]⟩, .moved) ∧
    ([2, 1, 0, 3] : List Nat) ≠ c4State.tiles ∧
    on_tile_click c4State 2 0 = .error "IndexError" :=
  ⟨by decide, rfl, by decide, rfl⟩

/-- C4 (amended): for out-of-grid coordinates, in Human mode,
`on_tile_click` is not a silent no-op in general: when the flat index
`row*N+col` resolves to no list position (it is `≥ N²` or `< -N²`) the
call raises `IndexError`; when it resolves (Python negative-index
wrapping) to a position `j`, the call succeeds and behaves as a click on
cell `j` with adjacency still measured from the raw (row, col): `tiles`
changes iff cell `j` is not the blank and the raw coordinate is at
Manhattan distance 1 from the blank, else the state is unchanged. -/
theorem C4_out_of_grid (st : PuzzleState) (row col : Int)
    (hmode : st.mode = "Human")
    (hperm : st.tiles.Perm (List.range (st.size * st.size)))
    (hsz : 0 < st.size)
    (hout : ¬(0 ≤ row ∧ row < (st.size : Int) ∧ 0 ≤ col ∧ col < (st.size : Int))) :
    (pyIdx st.tiles.length (row * (st.size : Int) + col) = none →
      on_tile_click st row col = .error "IndexError") ∧
    (∀ j, pyIdx st.tiles.length (row * (st.size : Int) + col) = some j →
      ∃ st' out, on_tile_click st row col = .ok (st', out) ∧
        (st'.tiles ≠ st.tiles ↔
          (st.tiles.getD j 0 ≠ 0 ∧
            (((st.tiles.indexOf 0 / st.size : Nat) : Int) - row).natAbs +
            (((st.tiles.indexOf 0 % st.size : Nat) : Int) - col).natAbs = 1))) :=
  click_spec st row col hmode
    (hperm.mem_iff.mpr (List.mem_range.mpr (Nat.mul_pos hsz hsz)))

theorem C4_out_of_grid_witness :
    ¬(0 ≤ (-1 : Int) ∧ (-1 : Int) < (c4State.size : Int) ∧
      0 ≤ (0 : Int) ∧ (0 : Int) < (c4State.size : Int)) ∧
    ((pyIdx c4State.tiles.length ((-1) * (c4State.size : Int) + 0) = none →
      on_tile_click c4State (-1) 0 = .error "IndexError") ∧
    (∀ j, pyIdx c4State.tiles.length ((-1) * (c4State.size : Int) + 0) = some j →
      ∃ st' out, on_tile_click c4State (-1) 0 = .ok (st', out) ∧
        (st'.tiles ≠ c4State.tiles ↔
          (c4State.tiles.getD j 0 ≠ 0 ∧
            (((c4State.tiles.indexOf 0 / c4State.size : Nat) : Int) - (-1)).natAbs +
            (((c4State.tiles.indexOf 0 % c4State.size : Nat) : Int) - 0).natAbs = 1)))) :=
  ⟨by decide, C4_out_of_grid c4State (-1) 0 rfl (by decide) (by decide) (by decide)⟩

/-- C5: on the 3×3 board `[1,2,3,4,5,6,7,0,8]` (blank at row 2, column 1),
in Human mode, `on_tile_click(2,2)` performs the slide: the result has
tiles `[1,2,3,4,5,6,7,8,0]`, `move_count` equal to its prior value plus 1,
and `is_solved` reports true immediately after the swap (the
`movedAndSolved` outcome). -/
theorem C5_solving_scenario (m : Nat) :
    on_tile_click ⟨3, "Human", m, [1, 2, 3, 4, 5, 6, 7, 0, 8]⟩ 2 2 =
      .ok (⟨3, "Human", m + 1, [1, 2, 3, 4, 5, 6, 7, 8, 0]⟩, .movedAndSolved) ∧
    is_solved ⟨3, "Human", m + 1, [1, 2, 3, 4, 5, 6, 7, 8, 0]⟩ = true := by
  refine ⟨?_, rfl⟩
  have h := @click_accept ⟨3, "Human", m, [1, 2, 3, 4, 5, 6, 7, 0, 8]⟩ 2 2 8
    rfl rfl (by exact (by decide : (8 : Nat) ≠ 0))
    (by exact (by decide : (0 : Nat) ∈ [1, 2, 3, 4, 5, 6, 7, 0, 8]))
    (by exact (by decide :
      ((((7 : Nat) / 3 : Nat) : Int) - 2).natAbs +
        ((((7 : Nat) % 3 : Nat) : Int) - 2).natAbs = 1))
  have hc : clickResult ⟨3, "Human", m, [1, 2, 3, 4, 5, 6, 7, 0, 8]⟩ 8 =
      ⟨3, "Human", m + 1, [1, 2, 3, 4, 5, 6, 7, 8, 0]⟩ := rfl
  have hff : (if is_solved ⟨3, "Human", m + 1, [1, 2, 3, 4, 5, 6, 7, 8, 0]⟩ then
      Outcome.movedAndSolved else Outcome.moved) = Outcome.movedAndSolved := rfl
  rw [h, hc, hff]

theorem C5_witness :
    on_tile_click ⟨3, "Human", 5, [1, 2, 3, 4, 5, 6, 7, 0, 8]⟩ 2 2 =
      .ok (⟨3, "Human", 6, [1, 2, 3, 4, 5, 6, 7, 8, 0]⟩, .movedAndSolved) ∧
    is_solved ⟨3, "Human", 6, [1, 2, 3, 4, 5, 6, 7, 8, 0]⟩ = true :=
  C5_solving_scenario 5

/-- C9: when the mode is not "Human", `on_tile_click` returns immediately:
for every coordinate the state is unchanged and the outcome `unchanged`,
so user clicks never mutate the board during bot play. -/
theorem C9_bot_mode_noop (st : PuzzleState) (row col : Int)
    (h : st.mode ≠ "Human") :
    on_tile_click st row col = .ok (st, .unchanged) :=
  click_not_human row col h

theorem C9_witness :
    botState.mode ≠ "Human" ∧
    on_tile_click botState 99 (-5) = .ok (botState, .unchanged) :=
  ⟨by decide, C9_bot_mode_noop botState 99 (-5) (by decide)⟩

/-- C2: for every `N` in `[2,8]` and after any sequence of `new_game` and
`on_tile_click` calls (with in-grid coordinates), `tiles` is a permutation
of `{0, …, N²-1}`: every value appears exactly once, including exactly one
zero (the blank). -/
theorem C2_permutation_invariant (st0 : PuzzleState) (nInput : Int)
    (rand : Nat → Nat) (ops : List Op) (st' : PuzzleState)
    (h : runOps st0 (Op.newGame nInput rand :: ops) = .ok st') :
    2 ≤ st'.size ∧ st'.size ≤ 8 ∧
    st'.tiles.Perm (List.range (st'.size * st'.size)) ∧
    st'.tiles.count 0 = 1 := by
  simp only [runOps, applyOp] at h
  cases hng : new_game st0 nInput rand with
  | error e => rw [hng] at h; exact Except.noConfusion h
  | ok st1 =>
    rw [hng] at h
    obtain ⟨h2, h8, hperm⟩ := runOps_valid ops st1 st' (valid_of_new_game hng) h
    refine ⟨h2, h8, hperm, ?_⟩
    rw [hperm.count_eq]
    exact List.count_eq_one_of_mem (List.nodup_range _)
      (List.mem_range.mpr (Nat.mul_pos (by omega) (by omega)))

theorem C2_witness :
    2 ≤ (⟨2, "Human", 0, [1, 2, 3, 0]⟩ : PuzzleState).size ∧
    (⟨2, "Human", 0, [1, 2, 3, 0]⟩ : PuzzleState).size ≤ 8 ∧
    (⟨2, "Human", 0, [1, 2, 3, 0]⟩ : PuzzleState).tiles.Perm
      (List.range ((⟨2, "Human", 0, [1, 2, 3, 0]⟩ : PuzzleState).size *
        (⟨2, "Human", 0, [1, 2, 3, 0]⟩ : PuzzleState).size)) ∧
    (⟨2, "Human", 0, [1, 2, 3, 0]⟩ : PuzzleState).tiles.count 0 = 1 :=
  C2_permutation_invariant demoA 2 (fun _ => 0) [Op.click 0 0]
    ⟨2, "Human", 0, [1, 2, 3, 0]⟩ rfl

/-- C3: for every size input and every sequence of random choices made by
the shuffle, the board produced by `new_game` (solved board followed by
`shuffle_board`) is reachable from the solved state by a finite sequence
of legal slides — it is always solvable; moreover each shuffle step's
neighbour choice is an orthogonal in-grid cell at Manhattan distance 1. -/
theorem C3_shuffle_reachable (st : PuzzleState) (nInput : Int) (rand : Nat → Nat)
    (st' : PuzzleState) (h : new_game st nInput rand = .ok st') :
    ReachableFrom st'.size (solvedBoard st'.size) st'.tiles ∧
    (∀ r c nr nc : Nat, r < st'.size → c < st'.size →
      (nr, nc) ∈ get_neighbors st'.size r c →
      nr < st'.size ∧ nc < st'.size ∧
        ((r : Int) - nr).natAbs + ((c : Int) - nc).natAbs = 1) := by
  constructor
  · obtain ⟨st2, hng, -, -, -, -, hreach⟩ := new_game_ok st nInput rand
    rw [hng] at h
    cases h
    exact hreach
  · intro r c nr nc hr hc hmem
    exact get_neighbors_spec hr hc hmem

theorem C3_witness :
    ReachableFrom 2 (solvedBoard 2) [1, 2, 3, 0] ∧
    (∀ r c nr nc : Nat, r < 2 → c < 2 → (nr, nc) ∈ get_neighbors 2 r c →
      nr < 2 ∧ nc < 2 ∧ ((r : Int) - nr).natAbs + ((c : Int) - nc).natAbs = 1) :=
  C3_shuffle_reachable demoA 2 (fun _ => 0) ⟨2, "Human", 0, [1, 2, 3, 0]⟩ rfl

/-- C6: `move_count` increases by exactly 1 on every accepted move (the
`moved` / `movedAndSolved` outcomes of `on_tile_click`), by 0 on every
rejected or blank-cell move (the `unchanged` outcome), is set to 0 by
`new_game`, and is not modified by `shuffle_board`. -/
theorem C6_move_counting :
    (∀ st st' : PuzzleState, ∀ row col : Int, ∀ out : Outcome,
      on_tile_click st row col = .ok (st', out) →
        (out = Outcome.unchanged → st'.move_count = st.move_count) ∧
        (out ≠ Outcome.unchanged → st'.move_count = st.move_count + 1)) ∧
    (∀ st st' : PuzzleState, ∀ nInput : Int, ∀ rand : Nat → Nat,
      new_game st nInput rand = .ok st' → st'.move_count = 0) ∧
    (∀ st st' : PuzzleState, ∀ rand : Nat → Nat, ∀ moves : Nat,
      shuffle_board_state st rand moves = .ok st' →
        st'.move_count = st.move_count) := by
  refine ⟨?_, ?_, ?_⟩
  · intro st st' row col out h
    rcases on_tile_click_cases h with ⟨rfl, rfl⟩ | ⟨j, -, -, -, rfl, hne⟩
    · exact ⟨fun _ => rfl, fun hc => absurd rfl hc⟩
    · exact ⟨fun hc => absurd hc hne, fun _ => rfl⟩
  · intro st st' nInput rand h
    obtain ⟨st2, hng, -, -, hmc, -, -⟩ := new_game_ok st nInput rand
    rw [hng] at h
    cases h
    exact hmc
  · intro st st' rand moves h
    simp only [shuffle_board_state] at h
    cases hr : shuffle_board st.size rand moves st.tiles with
    | error e => rw [hr] at h; exact Except.noConfusion h
    | ok t => rw [hr] at h; cases h; rfl

theorem C6_witness :
    (⟨3, "Human", 6, [1, 2, 3, 4, 5, 6, 7, 8, 0]⟩ : PuzzleState).move_count =
      (⟨3, "Human", 5, [1, 2, 3, 4, 5, 6, 7, 0, 8]⟩ : PuzzleState).move_count + 1 :=
  (C6_move_counting.1 ⟨3, "Human", 5, [1, 2, 3, 4, 5, 6, 7, 0, 8]⟩
    ⟨3, "Human", 6, [1, 2, 3, 4, 5, 6, 7, 8, 0]⟩ 2 2 .movedAndSolved rfl).2
    (by decide)

/-- C7: for every integer `n`, `new_game` uses a size clamped into
`[2, 8]`: below 2 it becomes 2, above 8 it becomes 8, otherwise `n` is
used as-is; out-of-range input is never rejected and the call never
raises. -/
theorem C7_size_clamped (st : PuzzleState) (nInput : Int) (rand : Nat → Nat) :
    ∃ st', new_game st nInput rand = .ok st' ∧
      (nInput < 2 → st'.size = 2) ∧
      (nInput > 8 → st'.size = 8) ∧
      (2 ≤ nInput → nInput ≤ 8 → (st'.size : Int) = nInput) := by
  obtain ⟨st', hng, hsize, -, -, -, -⟩ := new_game_ok st nInput rand
  refine ⟨st', hng, ?_, ?_, ?_⟩
  · intro hlt
    rw [hsize]
    simp only [clampSize]
    rw [if_pos hlt]
  · intro hgt
    rw [hsize]
    simp only [clampSize]
    rw [if_neg (by omega), if_pos hgt]
  · intro hge hle
    rw [hsize]
    simp only [clampSize]
    rw [if_neg (by omega), if_neg (by omega)]
    exact Int.toNat_of_nonneg (by omega)

theorem C7_witness :
    ∃ st', new_game demoA 100 (fun _ => 0) = .ok st' ∧
      ((100 : Int) < 2 → st'.size = 2) ∧
      ((100 : Int) > 8 → st'.size = 8) ∧
      ((2 : Int) ≤ 100 → (100 : Int) ≤ 8 → (st'.size : Int) = 100) :=
  C7_size_clamped demoA 100 (fun _ => 0)

/-- C8: `shuffle_board` mutates only `tiles`: for every starting state and
every number of shuffle steps, `size`, `move_count` (and `mode`) are
exactly the same after `shuffle_board` returns as before the call. -/
theorem C8_shuffle_frame (st : PuzzleState) (rand : Nat → Nat) (moves : Nat)
    (st' : PuzzleState) (h : shuffle_board_state st rand moves = .ok st') :
    st'.size = st.size ∧ st'.move_count = st.move_count ∧ st'.mode = st.mode := by
  simp only [shuffle_board_state] at h
  cases hr : shuffle_board st.size rand moves st.tiles with
  | error e => rw [hr] at h; exact Except.noConfusion h
  | ok t => rw [hr] at h; cases h; exact ⟨rfl, rfl, rfl⟩

theorem C8_witness :
    (⟨2, "Human", 0, [1, 3, 2, 0]⟩ : PuzzleState).size = demoA.size ∧
    (⟨2, "Human", 0, [1, 3, 2, 0]⟩ : PuzzleState).move_count = demoA.move_count ∧
    (⟨2, "Human", 0, [1, 3, 2, 0]⟩ : PuzzleState).mode = demoA.mode :=
  C8_shuffle_frame demoA (fun _ => 0) 3 ⟨2, "Human", 0, [1, 3, 2, 0]⟩ rfl

/-- C10: when launching the external bot script fails (script file not
found, or the spawn raises), `call_bot_script` reports the failure with a
human-readable message and returns the state unchanged. -/
theorem C10_launch_failure (st : PuzzleState) (ex : Bool) (sp : SpawnResult)
    (h : ex = false ∨ ∃ e, sp = SpawnResult.raised e) :
    (call_bot_script st ex sp).1 = st ∧
    ∃ msg, (call_bot_script st ex sp).2 = some msg ∧
      (ex = false → msg = "Bot script not found .\nExpected file: Bot.py") ∧
      (∀ e, ex = true → sp = SpawnResult.raised e →
        msg = "Failed to start bot script:\n" ++ e) := by
  cases hx : ex with
  | false =>
    refine ⟨rfl, "Bot script not found .\nExpected file: Bot.py", rfl,
      fun _ => rfl, ?_⟩
    intro e het _
    exact absurd het (by simp)
  | true =>
    rcases h with hex | ⟨e, hsp⟩
    · exact absurd (hx ▸ hex) (by simp)
    · subst hsp
      refine ⟨rfl, "Failed to start bot script:\n" ++ e, rfl, ?_, ?_⟩
      · intro hf
        exact absurd hf (by simp)
      · intro e' _ hsp'
        cases hsp'
        rfl

theorem C10_witness :
    (call_bot_script demoA false .started).1 = demoA ∧
    ∃ msg, (call_bot_script demoA false .started).2 = some msg ∧
      ((false : Bool) = false →
        msg = "Bot script not found .\nExpected file: Bot.py") ∧
      (∀ e, (false : Bool) = true → SpawnResult.started = SpawnResult.raised e →
        msg = "Failed to start bot script:\n" ++ e) :=
  C10_launch_failure demoA false .started (Or.inl rfl)

end SlidingPuzzle
